import Mathlib

/-
  Verification of the markdown fenced-block extractor
  (.github/test-fixtures/extract-rust-blocks.py).

  The script scans a markdown document line by line with a two-state
  machine (OUTSIDE / INSIDE a fenced block) and yields
  (line_number, attributes, content) triples for rust code fences.

  We embed the script shallowly: a document is a list of characters,
  a line is a list of characters (the script splits the document on
  the newline character, exactly as content.split here), and the scan
  is a fold over the lines carrying the script's four local variables
  (in_block, block_start, block_content, attributes).
-/

namespace ExtractRustBlocks

/-- A line of the document: a list of characters (no newline inside,
when produced by `splitLines`). -/
abbrev Line := List Char

/-- The backtick character (code point 96). -/
def bq : Char := Char.ofNat 96

/-- The lowercase opening-fence head, the 7 characters of "```rust". -/
def openLower : Line := [bq, bq, bq, 'r', 'u', 's', 't']

/-- The capitalised opening-fence head, the 7 characters of "```Rust". -/
def openUpper : Line := [bq, bq, bq, 'R', 'u', 's', 't']

/-- The closing fence: a line of exactly three backticks. -/
def fenceClose : Line := [bq, bq, bq]

/-- Embeds the regex test `re.match(r'^```[Rr]ust(,.*)?$', line)` on a
newline-free line: the line is exactly three backticks followed by
`rust` or `Rust`, optionally followed by a comma and anything. Note the
regex is case-insensitive only in its FIRST letter (`[Rr]`). -/
def isRustOpen (l : Line) : Bool :=
  l = openLower || l = openUpper ||
    (openLower ++ [',']).isPrefixOf l || (openUpper ++ [',']).isPrefixOf l

/-- Embeds the attribute extraction
`re.match(r'^```[Rr]ust,(.*)$', line)`: when the line starts with
three backticks, the tag and a comma (8 characters), the attributes are
everything after that comma; otherwise the empty string. -/
def attrsOf (l : Line) : Line :=
  if (openLower ++ [',']).isPrefixOf l then l.drop 8
  else if (openUpper ++ [',']).isPrefixOf l then l.drop 8
  else []

/-- Embeds `line.startswith('```')`. -/
def startsTicks (l : Line) : Bool :=
  fenceClose.isPrefixOf l

/-- The unit of output: one extracted block, a
(line_number, attributes, content) triple as yielded by the script. -/
structure Block where
  start : Nat
  attrs : Line
  content : Line
deriving DecidableEq, Repr

/-- The script's loop state: the four local variables of
`extract_rust_blocks`. -/
structure ScanState where
  in_block : Bool
  block_start : Nat
  block_content : List Line
  attributes : Line
deriving DecidableEq, Repr

/-- Embeds `'\n'.join(block_content)`. -/
def joinNL (ls : List Line) : Line :=
  (ls.intersperse ['\n']).flatten

/-- One iteration of the script's `for i, line in enumerate(lines, 1)`
body: given the current state and the (1-indexed) line number, returns
the next state and the blocks yielded during this iteration. The four
branches are translated in order; the first two end in `continue`, the
last two both run when reached. -/
def step (s : ScanState) (i : Nat) (l : Line) : ScanState × List Block :=
  if isRustOpen l then
    (⟨true, i, [], attrsOf l⟩, [])
  else if l = fenceClose ∧ s.in_block then
    ({ s with in_block := false },
     [⟨s.block_start, s.attributes, joinNL s.block_content⟩])
  else
    let s1 := if s.in_block then
      { s with block_content := s.block_content ++ [l] } else s
    if startsTicks l ∧ s1.in_block ∧ l ≠ fenceClose then
      ({ s1 with in_block := false }, [])
    else (s1, [])

/-- The end-of-document handling: a still-open block is yielded. -/
def atEof (s : ScanState) : List Block :=
  if s.in_block then [⟨s.block_start, s.attributes, joinNL s.block_content⟩]
  else []

/-- The scan loop over the remaining lines, `i` the 1-indexed number of
the first of them. -/
def scanLoop : ScanState → Nat → List Line → List Block
  | s, _, [] => atEof s
  | s, i, l :: rest => (step s i l).2 ++ scanLoop (step s i l).1 (i + 1) rest

/-- Embeds `content.split('\n')`: split on every newline, keeping empty
pieces; the empty document gives one empty line. -/
def splitLines : List Char → List Line
  | [] => [[]]
  | c :: cs =>
    if c = '\n' then [] :: splitLines cs
    else
      match splitLines cs with
      | [] => [[c]]
      | l :: ls => (c :: l) :: ls

/-- The whole generator `extract_rust_blocks(content)`: split the
document into lines and scan them from the initial state. -/
def extract_rust_blocks (content : List Char) : List Block :=
  scanLoop ⟨false, 0, [], []⟩ 1 (splitLines content)

/-- Convenience front end taking a `String` document. -/
def extractStr (s : String) : List Block :=
  extract_rust_blocks s.toList

/-! ### Well-formed documents

A well-formed document is a sequence of segments, each made of some
junk lines (no opening fence among them), an opening fence, body lines
(none starting with three backticks) and the closing fence, followed by
trailing lines. -/

/-- One well-formed segment: junk before the fence, the opening fence
line, and the body between the fences. The closing fence is implicit. -/
structure Seg where
  junk : List Line
  fence : Line
  body : List Line
deriving DecidableEq, Repr

/-- Lines that do not interact with the scanner while outside a
block: none of them is an opening fence. -/
def goodJunk (ls : List Line) : Prop :=
  ∀ l ∈ ls, isRustOpen l = false

/-- Lines that do not interact with the scanner while inside a block:
none of them starts with three backticks. -/
def goodBody (ls : List Line) : Prop :=
  ∀ l ∈ ls, startsTicks l = false

/-- A segment whose junk is inert, whose fence opens, and whose body is
plain content. -/
def goodSeg (g : Seg) : Prop :=
  goodJunk g.junk ∧ isRustOpen g.fence = true ∧ goodBody g.body

instance : DecidablePred goodJunk := fun ls =>
  inferInstanceAs (Decidable (∀ l ∈ ls, isRustOpen l = false))

instance : DecidablePred goodBody := fun ls =>
  inferInstanceAs (Decidable (∀ l ∈ ls, startsTicks l = false))

instance : DecidablePred goodSeg := fun g =>
  inferInstanceAs
    (Decidable (goodJunk g.junk ∧ isRustOpen g.fence = true ∧ goodBody g.body))

/-- The lines of a well-formed document: the segments, each closed by
the closing fence, then the trailing lines. -/
def flattenDoc : List Seg → List Line → List Line
  | [], tail => tail
  | g :: gs, tail => g.junk ++ g.fence :: (g.body ++ fenceClose :: flattenDoc gs tail)

/-- Number of lines contributed by one segment. -/
def segLen (g : Seg) : Nat :=
  g.junk.length + g.body.length + 2

/-- Number of lines contributed by a list of segments. -/
def docLen : List Seg → Nat
  | [] => 0
  | g :: gs => segLen g + docLen gs

/-- The blocks the spec promises for a well-formed document whose first
line is numbered `n`: one block per fence, in source order, starting at
the fence's line number, with the fence's attributes and the body lines
joined by newlines. -/
def expectedBlocks : Nat → List Seg → List Block
  | _, [] => []
  | n, g :: gs =>
    ⟨n + g.junk.length, attrsOf g.fence, joinNL g.body⟩ ::
      expectedBlocks (n + segLen g) gs

/-! ### A fuelled scan, for the termination claim -/

/-- The scan loop with explicit fuel: each line costs one unit of fuel,
and `none` is returned when the fuel runs out before the document. -/
def scanFuel : Nat → ScanState → Nat → List Line → Option (List Block)
  | _, s, _, [] => some (atEof s)
  | 0, _, _, _ :: _ => none
  | fuel + 1, s, i, l :: rest =>
    (scanFuel fuel (step s i l).1 (i + 1) rest).map ((step s i l).2 ++ ·)

/-! ### The scan as a relation, for the determinism claim -/

/-- The scan, presented as an input/output relation rather than a
function: `Scans s i lines out` holds when a run of the loop started in
state `s` at line number `i` over `lines` yields exactly `out`. -/
inductive Scans : ScanState → Nat → List Line → List Block → Prop
  | eof (s : ScanState) (i : Nat) : Scans s i [] (atEof s)
  | more (s : ScanState) (i : Nat) (l : Line) (rest : List Line)
      (s' : ScanState) (out bs : List Block) :
      step s i l = (s', out) → Scans s' (i + 1) rest bs →
      Scans s i (l :: rest) (out ++ bs)

/-! ### Spec-side definition for the attributes claim -/

/-- Taken from the spec's words: the substring following the first
comma of the line, and the empty string when no comma is present. -/
def afterFirstComma : Line → Line
  | [] => []
  | c :: cs => if c = ',' then cs else afterFirstComma cs

/-! ### Model of the command-line entry point

`main` parses `sys.argv`, reads the file as UTF-8 and prints the
blocks.  Reading can raise: `FileNotFoundError` and other `OSError`s
are caught by the `except FileNotFoundError` / `except IOError`
clauses; a UTF-8 decoding failure raises `UnicodeDecodeError`, which in
Python subclasses `ValueError`, not `OSError`, so neither clause
catches it and the exception propagates out of `main`. -/

/-- The exceptions the script's read of the input file can raise. -/
inductive ReadErr
  | fileNotFound
  | osError
  | unicodeDecodeError
deriving DecidableEq, Repr

/-- Whether one of the two `except` clauses of `main` catches the
exception: `FileNotFoundError` and `IOError` (an alias of `OSError`)
are caught; `UnicodeDecodeError` subclasses `ValueError`, so it is
not. -/
def caughtByMain : ReadErr → Bool
  | .fileNotFound => true
  | .osError => true
  | .unicodeDecodeError => false

/-- How a run of `main` ends. -/
inductive MainOutcome
  | output (blocks : List Block)
  | diagExit (code : Nat)
  | uncaughtExc (e : ReadErr)
deriving DecidableEq, Repr

/-- The entry point `main`, over an abstract read result: with a wrong
argument count, or a caught read error, one diagnostic line goes to
stderr and the process exits with code 1 (`diagExit 1`); on success the
blocks are written to stdout (`output`); an uncaught exception
propagates (`uncaughtExc`: the interpreter prints a multi-line
traceback to stderr and exits with code 1). -/
def mainModel (argcOk : Bool) (r : Except ReadErr (List Char)) : MainOutcome :=
  if !argcOk then .diagExit 1
  else
    match r with
    | .ok content => .output (extract_rust_blocks content)
    | .error e => if caughtByMain e then .diagExit 1 else .uncaughtExc e

/-! ### Helper lemmas about one step of the scan -/

/-- A rust opening fence starts with three backticks. -/
lemma startsTicks_of_open {l : Line} (h : isRustOpen l = true) :
    startsTicks l = true := by
  simp only [isRustOpen, Bool.or_eq_true, decide_eq_true_eq,
    List.isPrefixOf_iff_prefix] at h
  simp only [startsTicks, List.isPrefixOf_iff_prefix]
  rcases h with ((h | h) | h) | h
  · subst h; decide
  · subst h; decide
  · exact List.IsPrefix.trans (by decide) h
  · exact List.IsPrefix.trans (by decide) h

/-- The bare closing fence is not a rust opening fence. -/
lemma isRustOpen_fenceClose : isRustOpen fenceClose = false := by decide

/-- A line that does not start with three backticks is not a rust
opening fence. -/
lemma isRustOpen_eq_false {l : Line} (h : startsTicks l = false) :
    isRustOpen l = false := by
  cases h' : isRustOpen l
  · rfl
  · rw [startsTicks_of_open h'] at h; cases h

/-- Branch 1 of the loop body: an opening fence (re)initialises the
block state and yields nothing, whatever the previous state was. -/
lemma step_open {l : Line} (s : ScanState) (i : Nat)
    (h : isRustOpen l = true) :
    step s i l = (⟨true, i, [], attrsOf l⟩, []) := by
  simp [step, h]

/-- Branch 2 of the loop body: a closing fence while inside a block
yields the accumulated block and clears only `in_block`. -/
lemma step_close (s : ScanState) (i : Nat) (h : s.in_block = true) :
    step s i fenceClose =
      ({ s with in_block := false },
       [⟨s.block_start, s.attributes, joinNL s.block_content⟩]) := by
  simp [step, isRustOpen_fenceClose, h]

/-- Outside a block, a line that is not an opening fence changes
nothing and yields nothing. -/
lemma step_skip {l : Line} (s : ScanState) (i : Nat)
    (hin : s.in_block = false) (h : isRustOpen l = false) :
    step s i l = (s, []) := by
  simp [step, h, hin]

/-- Inside a block, a line that does not start with three backticks is
appended to the accumulated content. -/
lemma step_body {l : Line} (s : ScanState) (i : Nat)
    (hin : s.in_block = true) (h : startsTicks l = false) :
    step s i l = ({ s with block_content := s.block_content ++ [l] }, []) := by
  have hop : isRustOpen l = false := isRustOpen_eq_false h
  have hne : l ≠ fenceClose := by
    intro he; subst he; exact absurd h (by decide)
  simp [step, hop, hin, h, hne]

/-- Inside a block, a line that starts with three backticks but is
neither the closing fence nor a rust opening fence is first appended
to the content and then the state leaves the block without yielding. -/
lemma step_malformed {l : Line} (s : ScanState) (i : Nat)
    (hin : s.in_block = true) (ht : startsTicks l = true)
    (hne : l ≠ fenceClose) (hop : isRustOpen l = false) :
    step s i l =
      ({ s with in_block := false,
                block_content := s.block_content ++ [l] }, []) := by
  simp [step, hop, hin, ht, hne]

/-- The five mutually exclusive behaviours of one loop iteration. -/
lemma step_cases (s : ScanState) (i : Nat) (l : Line) :
    (isRustOpen l = true ∧ step s i l = (⟨true, i, [], attrsOf l⟩, [])) ∨
    (s.in_block = true ∧ l = fenceClose ∧
      step s i l = ({ s with in_block := false },
        [⟨s.block_start, s.attributes, joinNL s.block_content⟩])) ∨
    (s.in_block = true ∧ startsTicks l = true ∧ l ≠ fenceClose ∧
      isRustOpen l = false ∧
      step s i l = ({ s with in_block := false,
                             block_content := s.block_content ++ [l] }, [])) ∨
    (s.in_block = true ∧ startsTicks l = false ∧
      step s i l = ({ s with block_content := s.block_content ++ [l] }, [])) ∨
    (s.in_block = false ∧ isRustOpen l = false ∧ step s i l = (s, [])) := by
  cases hop : isRustOpen l
  · cases hin : s.in_block
    · exact Or.inr (Or.inr (Or.inr (Or.inr ⟨rfl, rfl, step_skip s i hin hop⟩)))
    · by_cases hne : l = fenceClose
      · subst hne
        exact Or.inr (Or.inl ⟨rfl, rfl, step_close s i hin⟩)
      · cases ht : startsTicks l
        · exact Or.inr (Or.inr (Or.inr (Or.inl
            ⟨rfl, rfl, by rw [step_body s i hin ht, hin]⟩)))
        · exact Or.inr (Or.inr (Or.inl
            ⟨rfl, rfl, hne, rfl, step_malformed s i hin ht hne hop⟩))
  · exact Or.inl ⟨rfl, step_open s i hop⟩

/-! ### Helper lemmas about the whole scan loop -/

lemma scanLoop_nil (s : ScanState) (i : Nat) : scanLoop s i [] = atEof s := rfl

lemma scanLoop_cons (s : ScanState) (i : Nat) (l : Line) (rest : List Line) :
    scanLoop s i (l :: rest) =
      (step s i l).2 ++ scanLoop (step s i l).1 (i + 1) rest := rfl

/-- Junk lines are skipped while outside a block: only the line number
advances. -/
lemma scanLoop_junk {js : List Line} (hj : goodJunk js) :
    ∀ (s : ScanState) (n : Nat) (rest : List Line), s.in_block = false →
      scanLoop s n (js ++ rest) = scanLoop s (n + js.length) rest := by
  induction js with
  | nil => intro s n rest _; simp
  | cons j js ih =>
    intro s n rest hin
    have hj0 : isRustOpen j = false := hj j (by simp)
    have hj' : goodJunk js := fun l hl => hj l (by simp [hl])
    rw [List.cons_append, scanLoop_cons, step_skip s n hin hj0]
    rw [ih hj' s (n + 1) rest hin]
    simp [Nat.add_comm, Nat.add_assoc, Nat.add_left_comm]

/-- Body lines are accumulated, in order, while inside a block. -/
lemma scanLoop_body {body : List Line} (hb : goodBody body) :
    ∀ (s : ScanState) (n : Nat) (rest : List Line), s.in_block = true →
      scanLoop s n (body ++ rest) =
        scanLoop { s with block_content := s.block_content ++ body }
          (n + body.length) rest := by
  induction body with
  | nil => intro s n rest _; simp
  | cons l body ih =>
    intro s n rest hin
    have hl : startsTicks l = false := hb l (by simp)
    have hb' : goodBody body := fun x hx => hb x (by simp [hx])
    rw [List.cons_append, scanLoop_cons, step_body s n hin hl]
    rw [ih hb' { s with block_content := s.block_content ++ [l] }
      (n + 1) rest hin]
    simp [Nat.add_comm, Nat.add_assoc, Nat.add_left_comm, List.append_assoc]

/-- Opening fence at the head of the remaining lines. -/
lemma scanLoop_open {l : Line} (h : isRustOpen l = true)
    (s : ScanState) (i : Nat) (rest : List Line) :
    scanLoop s i (l :: rest) =
      scanLoop ⟨true, i, [], attrsOf l⟩ (i + 1) rest := by
  rw [scanLoop_cons, step_open s i h]
  rfl

/-- Closing fence at the head of the remaining lines, while inside. -/
lemma scanLoop_close (s : ScanState) (i : Nat) (rest : List Line)
    (hin : s.in_block = true) :
    scanLoop s i (fenceClose :: rest) =
      ⟨s.block_start, s.attributes, joinNL s.block_content⟩ ::
        scanLoop { s with in_block := false } (i + 1) rest := by
  rw [scanLoop_cons, step_close s i hin]
  rfl

/-- `scanLoop_body`, phrased on a literal state. -/
lemma scanLoop_body_lit {body : List Line} (hb : goodBody body)
    (st : Nat) (c : List Line) (a : Line) (n : Nat) (rest : List Line) :
    scanLoop ⟨true, st, c, a⟩ n (body ++ rest) =
      scanLoop ⟨true, st, c ++ body, a⟩ (n + body.length) rest :=
  scanLoop_body hb ⟨true, st, c, a⟩ n rest rfl

/-- `scanLoop_close`, phrased on a literal state. -/
lemma scanLoop_close_lit (st : Nat) (c : List Line) (a : Line)
    (n : Nat) (rest : List Line) :
    scanLoop ⟨true, st, c, a⟩ n (fenceClose :: rest) =
      ⟨st, a, joinNL c⟩ :: scanLoop ⟨false, st, c, a⟩ (n + 1) rest :=
  scanLoop_close ⟨true, st, c, a⟩ n rest rfl

/-- A whole well-formed prefix of the document produces exactly the
expected blocks, and leaves the scanner outside a block at the line
right after the prefix. -/
lemma scanLoop_wf :
    ∀ (gs : List Seg), (∀ g ∈ gs, goodSeg g) →
      ∀ (s : ScanState) (n : Nat) (tail : List Line), s.in_block = false →
        ∃ s' : ScanState, s'.in_block = false ∧
          scanLoop s n (flattenDoc gs tail) =
            expectedBlocks n gs ++ scanLoop s' (n + docLen gs) tail := by
  intro gs
  induction gs with
  | nil =>
    intro _ s n tail hin
    exact ⟨s, hin, by simp [flattenDoc, expectedBlocks, docLen]⟩
  | cons g gs ih =>
    intro hgs s n tail hin
    obtain ⟨hjunk, hfence, hbody⟩ : goodSeg g := hgs g (by simp)
    obtain ⟨s', hs', heq⟩ :=
      ih (fun x hx => hgs x (by simp [hx]))
        ⟨false, n + g.junk.length, g.body, attrsOf g.fence⟩
        (n + segLen g) tail rfl
    refine ⟨s', hs', ?_⟩
    have harith : n + g.junk.length + 1 + g.body.length + 1 = n + segLen g := by
      simp [segLen]; omega
    rw [flattenDoc, scanLoop_junk hjunk s n _ hin,
      scanLoop_open hfence, scanLoop_body_lit hbody, scanLoop_close_lit]
    simp only [List.nil_append]
    rw [harith, heq, expectedBlocks]
    simp [docLen, Nat.add_assoc]

/-- Scanning a document that starts with an arbitrary prefix of lines:
the prefix is processed first, ending in some state at the line right
after it, with some output; the rest of the scan continues from
there. -/
lemma scanLoop_append :
    ∀ (pre rest : List Line) (s : ScanState) (n : Nat),
      ∃ (s₁ : ScanState) (out₁ : List Block),
        scanLoop s n (pre ++ rest) =
          out₁ ++ scanLoop s₁ (n + pre.length) rest := by
  intro pre
  induction pre with
  | nil =>
    intro rest s n
    exact ⟨s, [], by simp⟩
  | cons l pre ih =>
    intro rest s n
    obtain ⟨s₁, out₁, heq⟩ := ih rest (step s n l).1 (n + 1)
    refine ⟨s₁, (step s n l).2 ++ out₁, ?_⟩
    rw [List.cons_append, scanLoop_cons, heq, List.append_assoc]
    have harith : n + 1 + pre.length = n + (pre.length + 1) := by omega
    rw [harith]
    rfl

/-- Trailing junk after the last block produces nothing. -/
lemma scanLoop_junk_nil {tail : List Line} (ht : goodJunk tail)
    (s : ScanState) (n : Nat) (hin : s.in_block = false) :
    scanLoop s n tail = [] := by
  rw [← List.append_nil tail, scanLoop_junk ht s n [] hin, scanLoop_nil,
    atEof, hin]
  simp

/-- The emitted start lines are bounded below (by the pending block's
start when inside, else by the current line number) and strictly
increasing. -/
lemma scanLoop_sorted :
    ∀ (lines : List Line) (s : ScanState) (n : Nat),
      (s.in_block = true → s.block_start < n) →
      ((scanLoop s n lines).map Block.start).Pairwise (· < ·) ∧
        ∀ b ∈ scanLoop s n lines,
          (if s.in_block then s.block_start else n) ≤ b.start := by
  intro lines
  induction lines with
  | nil =>
    intro s n hlt
    constructor
    · rw [scanLoop_nil, atEof]
      cases h : s.in_block <;> simp
    · intro b hb
      rw [scanLoop_nil, atEof] at hb
      cases h : s.in_block <;> simp [h] at hb ⊢
      simp [hb]
  | cons l rest ih =>
    intro s n hlt
    rcases step_cases s n l with
      ⟨hop, hstep⟩ | ⟨hin, hcl, hstep⟩ | ⟨hin, _, _, _, hstep⟩ |
      ⟨hin, _, hstep⟩ | ⟨hin, _, hstep⟩
    · -- opening fence: no output, fresh block starting at `n`
      rw [scanLoop_cons, hstep]
      obtain ⟨hpair, hbound⟩ :=
        ih ⟨true, n, [], attrsOf l⟩ (n + 1) (fun _ => Nat.lt_succ_self n)
      refine ⟨by simpa using hpair, ?_⟩
      intro b hb
      simp only [List.nil_append] at hb
      have := hbound b hb
      simp at this
      split
      · exact le_trans (le_of_lt (hlt (by assumption))) this
      · exact this
    · -- closing fence: the pending block is emitted
      rw [scanLoop_cons, hstep]
      obtain ⟨hpair, hbound⟩ :=
        ih { s with in_block := false } (n + 1) (by simp)
      constructor
      · simp only [List.cons_append, List.nil_append, List.map_cons,
          List.pairwise_cons]
        refine ⟨?_, hpair⟩
        intro x hx
        simp only [List.mem_map] at hx
        obtain ⟨b, hb, hxb⟩ := hx
        have := hbound b hb
        simp at this
        have hlt' := hlt hin
        omega
      · intro b hb
        simp only [List.cons_append, List.nil_append, List.mem_cons] at hb
        rcases hb with hb | hb
        · subst hb; simp [hin]
        · have := hbound b hb
          simp at this
          have hlt' := hlt hin
          simp [hin]
          omega
    · -- malformed fence: no output, leave the block
      rw [scanLoop_cons, hstep]
      obtain ⟨hpair, hbound⟩ :=
        ih { s with in_block := false,
                    block_content := s.block_content ++ [l] }
          (n + 1) (by simp)
      refine ⟨by simpa using hpair, ?_⟩
      intro b hb
      simp only [List.nil_append] at hb
      have := hbound b hb
      simp at this
      have hlt' := hlt hin
      simp [hin]
      omega
    · -- body line: no output, stay in the block
      rw [scanLoop_cons, hstep]
      have hlt' := hlt hin
      obtain ⟨hpair, hbound⟩ :=
        ih { s with block_content := s.block_content ++ [l] } (n + 1)
          (by simp [hin]; omega)
      refine ⟨by simpa using hpair, ?_⟩
      intro b hb
      simp only [List.nil_append] at hb
      have := hbound b hb
      simp [hin] at this ⊢
      exact this
    · -- outside, inert line: no output, no state change
      rw [scanLoop_cons, hstep]
      obtain ⟨hpair, hbound⟩ := ih s (n + 1) (by simp [hin])
      refine ⟨by simpa using hpair, ?_⟩
      intro b hb
      simp only [List.nil_append] at hb
      have := hbound b hb
      simp [hin] at this ⊢
      omega

/-- While outside a block, the output never depends on the dead
`block_start` / `block_content` / `attributes` fields. -/
lemma scanLoop_outside_irrel :
    ∀ (lines : List Line) (n : Nat) (s₁ s₂ : ScanState),
      s₁.in_block = false → s₂.in_block = false →
      scanLoop s₁ n lines = scanLoop s₂ n lines := by
  intro lines
  induction lines with
  | nil =>
    intro n s₁ s₂ h₁ h₂
    rw [scanLoop_nil, scanLoop_nil, atEof, atEof, h₁, h₂]
    simp
  | cons l rest ih =>
    intro n s₁ s₂ h₁ h₂
    cases hop : isRustOpen l
    · rw [scanLoop_cons, step_skip s₁ n h₁ hop,
        scanLoop_cons, step_skip s₂ n h₂ hop]
      simpa using ih (n + 1) s₁ s₂ h₁ h₂
    · rw [scanLoop_open hop, scanLoop_open hop]

/-- The scan relation holds exactly of the scan function's output. -/
lemma scans_iff :
    ∀ (lines : List Line) (s : ScanState) (i : Nat) (out : List Block),
      Scans s i lines out ↔ scanLoop s i lines = out := by
  intro lines
  induction lines with
  | nil =>
    intro s i out
    constructor
    · rintro ⟨⟩
      exact scanLoop_nil s i
    · rintro rfl
      exact Scans.eof s i
  | cons l rest ih =>
    intro s i out
    constructor
    · intro h
      cases h
      rename_i s' out' bs hstep htail
      rw [scanLoop_cons, hstep]
      rw [(ih s' (i + 1) bs).mp htail]
    · rintro rfl
      rw [scanLoop_cons]
      exact Scans.more s i l rest _ _ _ rfl
        ((ih _ (i + 1) _).mpr rfl)

/-- With at least one unit of fuel per line, the fuelled scan
completes and agrees with the plain one. -/
lemma scanFuel_complete :
    ∀ (lines : List Line) (fuel : Nat) (s : ScanState) (i : Nat),
      lines.length ≤ fuel →
      scanFuel fuel s i lines = some (scanLoop s i lines) := by
  intro lines
  induction lines with
  | nil =>
    intro fuel s i _
    cases fuel <;> rfl
  | cons l rest ih =>
    intro fuel s i hle
    cases fuel with
    | zero => simp at hle
    | succ fuel =>
      rw [scanFuel, ih fuel (step s i l).1 (i + 1) (by simpa using hle)]
      rfl

/-! ### Small computational bridges for the attributes claim -/

lemma afterFirstComma_lower (t : Line) :
    afterFirstComma ((openLower ++ [',']) ++ t) = t := rfl

lemma afterFirstComma_upper (t : Line) :
    afterFirstComma ((openUpper ++ [',']) ++ t) = t := rfl

lemma drop8_lower (t : Line) : ((openLower ++ [',']) ++ t).drop 8 = t := rfl

lemma drop8_upper (t : Line) : ((openUpper ++ [',']) ++ t).drop 8 = t := rfl

lemma lower_not_prefix_of_upper (t : Line) :
    (openLower ++ [',']).isPrefixOf ((openUpper ++ [',']) ++ t) = false := rfl

/-- The expected output of a well-formed document has one block per
fence. -/
lemma expectedBlocks_length :
    ∀ (n : Nat) (gs : List Seg), (expectedBlocks n gs).length = gs.length := by
  intro n gs
  induction gs generalizing n with
  | nil => rfl
  | cons g gs ih => simp [expectedBlocks, ih]

/-! ## The claims -/

/-- C1, counterexample: the claim covers a nested `rust` opening fence
(its own example), but such a line is not appended-and-dropped with a
transition to OUTSIDE: the scanner stays INSIDE with a fresh block
(start line 3, empty content), and the document of the spec's
zero-blocks shape but with a `rust` nested fence yields one block. -/
theorem c1_counterexample :
    extractStr "```rust\na\n```rust\nb\n```" = [⟨3, [], ['b']⟩] ∧
    (step ⟨true, 1, [['a']], []⟩ 3 ("```rust".toList)).1.in_block = true ∧
    (step ⟨true, 1, [['a']], []⟩ 3 ("```rust".toList)).2 = [] ∧
    (step ⟨true, 1, [['a']], []⟩ 3 ("```rust".toList)).1.block_content
      = [] := by
  decide

/-- C1, amended: while INSIDE, a line that starts with three backticks,
is not exactly the closing fence and does not match the rust
opening-fence pattern, is first appended to the accumulated content
and the scanner immediately transitions to OUTSIDE without emitting the
in-progress block; scanning resumes from OUTSIDE at the line right
after it. (A nested rust opening fence instead restarts a new block.) -/
theorem c1_amended (s : ScanState) (i : Nat) (l : Line) (rest : List Line)
    (hin : s.in_block = true) (ht : startsTicks l = true)
    (hne : l ≠ fenceClose) (hop : isRustOpen l = false) :
    step s i l = ({ s with in_block := false,
                           block_content := s.block_content ++ [l] }, []) ∧
    scanLoop s i (l :: rest) =
      scanLoop { s with in_block := false,
                        block_content := s.block_content ++ [l] }
        (i + 1) rest := by
  refine ⟨step_malformed s i hin ht hne hop, ?_⟩
  rw [scanLoop_cons, step_malformed s i hin ht hne hop]
  rfl

/-- C1, witness for the amended theorem at a concrete input. -/
theorem c1_amended_witness :
    step ⟨true, 1, [['a']], []⟩ 2 ("```python".toList) =
      (⟨false, 1, [['a'], "```python".toList], []⟩, []) ∧
    scanLoop ⟨true, 1, [['a']], []⟩ 2 ("```python".toList :: [['b']]) =
      scanLoop ⟨false, 1, [['a'], "```python".toList], []⟩ 3 [['b']] :=
  c1_amended ⟨true, 1, [['a']], []⟩ 2 ("```python".toList) [['b']]
    rfl (by decide) (by decide) (by decide)

/-- C2: the scanner's own comment says "case-insensitive rust" and the
spec says the tag match is case-insensitive, but the regex is
`^```[Rr]ust(,.*)?$`: only the first letter may vary, so ```RUST and
```rUst open no block (zero blocks where the claim expects one), while
```Rust and ```rust do. -/
theorem c2_case_insensitive_code_bug :
    isRustOpen ("```RUST".toList) = false ∧
    isRustOpen ("```rUst".toList) = false ∧
    extractStr "```RUST\nx\n```" = [] ∧
    extractStr "```rUst\nx\n```" = [] ∧
    extractStr "```Rust\nx\n```" = [⟨1, [], ['x']⟩] ∧
    extractStr "```rustacean\nx\n```" = [] ∧
    extractStr "```javascript\nx\n```" = [] := by
  decide

/-- C3: a document that splits into well-formed segments (junk without
opening fences, an opening fence, a body whose lines never start with
three backticks, the closing fence) followed by inert trailing lines
yields exactly one block per segment, in source order, starting at the
1-indexed line of its opening fence, with that fence's attributes and
the lines strictly between the fences joined by newlines. -/
theorem c3_well_formed (content : List Char) (gs : List Seg)
    (tail : List Line)
    (hsplit : splitLines content = flattenDoc gs tail)
    (hgs : ∀ g ∈ gs, goodSeg g) (htail : goodJunk tail) :
    extract_rust_blocks content = expectedBlocks 1 gs ∧
    (extract_rust_blocks content).length = gs.length := by
  have hmain : extract_rust_blocks content = expectedBlocks 1 gs := by
    rw [extract_rust_blocks, hsplit]
    obtain ⟨s', hs', heq⟩ := scanLoop_wf gs hgs ⟨false, 0, [], []⟩ 1 tail rfl
    rw [heq, scanLoop_junk_nil htail s' _ hs']
    simp
  exact ⟨hmain, by rw [hmain, expectedBlocks_length]⟩

/-- C3, witness: a two-segment document, checked concretely. -/
theorem c3_witness :
    (extract_rust_blocks ("x\n```rust,a\nb1\nb2\n```\n```Rust\nc\n```\ny".toList) =
      expectedBlocks 1
        [⟨[['x']], "```rust,a".toList, [['b', '1'], ['b', '2']]⟩,
         ⟨[], "```Rust".toList, [['c']]⟩] ∧
     (extract_rust_blocks ("x\n```rust,a\nb1\nb2\n```\n```Rust\nc\n```\ny".toList)).length =
       ([⟨[['x']], "```rust,a".toList, [['b', '1'], ['b', '2']]⟩,
         ⟨[], "```Rust".toList, [['c']]⟩] : List Seg).length) ∧
    expectedBlocks 1
        [⟨[['x']], "```rust,a".toList, [['b', '1'], ['b', '2']]⟩,
         ⟨[], "```Rust".toList, [['c']]⟩] =
      [⟨2, ['a'], ['b', '1', '\n', 'b', '2']⟩, ⟨6, [], ['c']⟩] :=
  ⟨c3_well_formed ("x\n```rust,a\nb1\nb2\n```\n```Rust\nc\n```\ny".toList)
      [⟨[['x']], "```rust,a".toList, [['b', '1'], ['b', '2']]⟩,
       ⟨[], "```Rust".toList, [['c']]⟩] [['y']]
      (by decide) (by decide) (by decide),
   by decide⟩

/-- C4: every document that reaches end of document while the scanner
is still INSIDE still yields a final block. A document ends INSIDE
exactly when its lines split as an arbitrary prefix (it may contain
well-formed blocks, malformed drops or nested restarts), then an
opening fence, then lines none of which starts with three backticks
(any such later line would close, drop, or itself be a later opening
fence). Whatever the prefix produced, the scan output ends with one
more block: its start line is the opening fence's 1-indexed line
number, its attributes come from that fence, and its content is every
line after the fence up to end of document, joined by newlines. -/
theorem c4_unclosed_eof (content : List Char) (pre : List Line)
    (f : Line) (body : List Line)
    (hsplit : splitLines content = pre ++ f :: body)
    (hf : isRustOpen f = true) (hb : goodBody body) :
    ∃ out : List Block,
      extract_rust_blocks content =
        out ++ [⟨1 + pre.length, attrsOf f, joinNL body⟩] := by
  rw [extract_rust_blocks, hsplit]
  obtain ⟨s₁, out₁, heq⟩ :=
    scanLoop_append pre (f :: body) ⟨false, 0, [], []⟩ 1
  refine ⟨out₁, ?_⟩
  rw [heq, scanLoop_open hf, ← List.append_nil body, scanLoop_body_lit hb,
    scanLoop_nil]
  simp [atEof, Nat.add_comm]

/-- C4, witness: a malformed drop, then a nested restart, then an
unclosed fence at end of document. -/
theorem c4_witness :
    ∃ out : List Block,
      extract_rust_blocks ("```rust\na\n```python\n```rust,x\nb\nc".toList) =
        out ++
          [⟨1 + (["```rust".toList, ['a'], "```python".toList] :
              List Line).length,
            attrsOf ("```rust,x".toList), joinNL [['b'], ['c']]⟩] :=
  c4_unclosed_eof ("```rust\na\n```python\n```rust,x\nb\nc".toList)
    ["```rust".toList, ['a'], "```python".toList] ("```rust,x".toList)
    [['b'], ['c']] (by decide) (by decide) (by decide)

/-- C5: on every opening fence line the extracted attributes are the
substring following the first comma of the line, and empty when the
line has no comma (the regex forces the first comma, when present, to
sit right after the tag). -/
theorem c5_attributes (l : Line) (h : isRustOpen l = true) :
    attrsOf l = afterFirstComma l := by
  simp only [isRustOpen, Bool.or_eq_true, decide_eq_true_eq,
    List.isPrefixOf_iff_prefix] at h
  rcases h with ((h | h) | h) | h
  · subst h; decide
  · subst h; decide
  · obtain ⟨t, ht⟩ := h
    have h1 : (openLower ++ [',']).isPrefixOf l = true :=
      List.isPrefixOf_iff_prefix.mpr ⟨t, ht⟩
    rw [← ht, attrsOf.eq_def]
    rw [← ht] at h1
    simp only [h1, if_true]
    rw [drop8_lower, afterFirstComma_lower]
  · obtain ⟨t, ht⟩ := h
    rw [← ht, attrsOf.eq_def]
    simp only [lower_not_prefix_of_upper, Bool.false_eq_true, if_false]
    have h2 : (openUpper ++ [',']).isPrefixOf ((openUpper ++ [',']) ++ t) = true :=
      List.isPrefixOf_iff_prefix.mpr ⟨t, rfl⟩
    simp only [h2, if_true]
    rw [drop8_upper, afterFirstComma_upper]

/-- C5, witness: the two examples of the spec, checked concretely. -/
theorem c5_witness :
    attrsOf ("```rust,ignore".toList) =
      afterFirstComma ("```rust,ignore".toList) ∧
    afterFirstComma ("```rust,ignore".toList) = "ignore".toList ∧
    attrsOf ("```rust".toList) = [] ∧
    afterFirstComma ("```rust".toList) = [] :=
  ⟨c5_attributes ("```rust,ignore".toList) (by decide),
   by decide, by decide, by decide⟩

/-- C6, counterexample: a UTF-8 decoding failure raises
`UnicodeDecodeError`, a subclass of `ValueError`, which neither
`except FileNotFoundError` nor `except IOError` catches: `main` does
not take the one-line-diagnostic exit path the claim describes, the
exception propagates uncaught. -/
theorem c6_counterexample :
    mainModel true (.error .unicodeDecodeError) =
      .uncaughtExc .unicodeDecodeError ∧
    mainModel true (.error .unicodeDecodeError) ≠ MainOutcome.diagExit 1 := by
  decide

/-- C6, amended: a decode failure propagates as an uncaught exception
(the interpreter prints a multi-line traceback to stderr and exits with
code 1, nothing is written to stdout), unlike a wrong argument count, a
missing file or an I/O error, which exit with code 1 after a one-line
diagnostic. -/
theorem c6_amended :
    mainModel true (.error .unicodeDecodeError) =
      .uncaughtExc .unicodeDecodeError ∧
    mainModel true (.error .fileNotFound) = .diagExit 1 ∧
    mainModel true (.error .osError) = .diagExit 1 ∧
    mainModel false (.ok []) = .diagExit 1 := by
  decide

/-- C7: the scan is total and terminates after examining each line
exactly once: given one unit of fuel per line of the document, the
fuelled scan never runs out of fuel and returns (`some`, never an
error) the plain scan's output. -/
theorem c7_total (content : List Char) :
    scanFuel (splitLines content).length ⟨false, 0, [], []⟩ 1
        (splitLines content) =
      some (extract_rust_blocks content) :=
  scanFuel_complete (splitLines content) (splitLines content).length
    ⟨false, 0, [], []⟩ 1 (le_refl _)

/-- C8: the scan is a deterministic function of the document alone:
any two runs of the scan relation from the initial state over the same
document produce the same output, namely the scan function's output. -/
theorem c8_deterministic (content : List Char) (out₁ out₂ : List Block)
    (h₁ : Scans ⟨false, 0, [], []⟩ 1 (splitLines content) out₁)
    (h₂ : Scans ⟨false, 0, [], []⟩ 1 (splitLines content) out₂) :
    out₁ = out₂ ∧ out₁ = extract_rust_blocks content := by
  have e₁ := (scans_iff (splitLines content) ⟨false, 0, [], []⟩ 1 out₁).mp h₁
  have e₂ := (scans_iff (splitLines content) ⟨false, 0, [], []⟩ 1 out₂).mp h₂
  exact ⟨by rw [← e₁, ← e₂], e₁.symm⟩

/-- C8, witness: two concrete runs over the one-line document "x". -/
theorem c8_witness :
    ([] : List Block) = ([] : List Block) ∧
    ([] : List Block) = extract_rust_blocks ['x'] :=
  c8_deterministic ['x'] [] []
    (Scans.more ⟨false, 0, [], []⟩ 1 ['x'] [] ⟨false, 0, [], []⟩ [] []
      rfl (Scans.eof ⟨false, 0, [], []⟩ 2))
    (Scans.more ⟨false, 0, [], []⟩ 1 ['x'] [] ⟨false, 0, [], []⟩ [] []
      rfl (Scans.eof ⟨false, 0, [], []⟩ 2))

/-- C9: a rust opening fence met while INSIDE discards the in-progress
block without emitting it and opens a fresh block at that very line:
new start line, attributes from this fence, empty content; a later
closing fence emits this new block with the body accumulated since. -/
theorem c9_nested_rust_restart (s : ScanState) (i : Nat) (l : Line)
    (body rest : List Line)
    (_hin : s.in_block = true) (hl : isRustOpen l = true)
    (hb : goodBody body) :
    step s i l = (⟨true, i, [], attrsOf l⟩, []) ∧
    scanLoop s i (l :: (body ++ fenceClose :: rest)) =
      ⟨i, attrsOf l, joinNL body⟩ ::
        scanLoop ⟨false, i, body, attrsOf l⟩ (i + 1 + body.length + 1) rest := by
  refine ⟨step_open s i hl, ?_⟩
  rw [scanLoop_open hl, scanLoop_body_lit hb, scanLoop_close_lit]
  simp

/-- C9, witness: restart at line 3 with pending content, then close. -/
theorem c9_witness :
    step ⟨true, 1, [['a']], []⟩ 3 ("```rust".toList) =
      (⟨true, 3, [], attrsOf ("```rust".toList)⟩, []) ∧
    scanLoop ⟨true, 1, [['a']], []⟩ 3
        ("```rust".toList :: ([['b']] ++ fenceClose :: [])) =
      ⟨3, attrsOf ("```rust".toList), joinNL [['b']]⟩ ::
        scanLoop ⟨false, 3, [['b']], attrsOf ("```rust".toList)⟩
          (3 + 1 + 1 + 1) [] :=
  c9_nested_rust_restart ⟨true, 1, [['a']], []⟩ 3 ("```rust".toList)
    [['b']] [] rfl (by decide) (by decide)

/-- C10: over one scan the emitted start lines are strictly increasing,
and no state of a discarded block leaks into later output: while
OUTSIDE the dead block fields are irrelevant to the rest of the scan,
and from a restarting rust fence onward the whole pending block state
is irrelevant. -/
theorem c10_invariants :
    (∀ content : List Char,
      ((extract_rust_blocks content).map Block.start).Pairwise (· < ·)) ∧
    (∀ (lines : List Line) (n : Nat) (s₁ s₂ : ScanState),
      s₁.in_block = false → s₂.in_block = false →
      scanLoop s₁ n lines = scanLoop s₂ n lines) ∧
    (∀ (l : Line) (rest : List Line) (n : Nat) (s₁ s₂ : ScanState),
      s₁.in_block = true → s₂.in_block = true → isRustOpen l = true →
      scanLoop s₁ n (l :: rest) = scanLoop s₂ n (l :: rest)) := by
  refine ⟨?_, ?_, ?_⟩
  · intro content
    exact (scanLoop_sorted (splitLines content) ⟨false, 0, [], []⟩ 1
      (by simp)).1
  · intro lines n s₁ s₂ h₁ h₂
    exact scanLoop_outside_irrel lines n s₁ s₂ h₁ h₂
  · intro l rest n s₁ s₂ _ _ hl
    rw [scanLoop_open hl, scanLoop_open hl]

/-- C10, witness: the three parts at concrete inputs. -/
theorem c10_witness :
    ((extract_rust_blocks ("```rust\na\n```\n```rust\nb\n```".toList)).map
      Block.start).Pairwise (· < ·) ∧
    scanLoop ⟨false, 7, [['z']], ['q']⟩ 1 [['x']] =
      scanLoop ⟨false, 0, [], []⟩ 1 [['x']] ∧
    scanLoop ⟨true, 1, [['a']], []⟩ 3 ("```rust".toList :: [[]]) =
      scanLoop ⟨true, 2, [['z']], ['q']⟩ 3 ("```rust".toList :: [[]]) :=
  ⟨c10_invariants.1 ("```rust\na\n```\n```rust\nb\n```".toList),
   c10_invariants.2.1 [['x']] 1 ⟨false, 7, [['z']], ['q']⟩
     ⟨false, 0, [], []⟩ rfl rfl,
   c10_invariants.2.2 ("```rust".toList) [[]] 3 ⟨true, 1, [['a']], []⟩
     ⟨true, 2, [['z']], ['q']⟩ rfl rfl (by decide)⟩

end ExtractRustBlocks
